import Mathlib

/-!
Verification of the changelog core of `nextra-docs-template`:
the commit-log parse → classify → filter → paginate pipeline of
`src/components/changelog/utils.ts`, the inline `Changelog` component
and the `Pagination` component.

JavaScript strings are modelled as Lean `String` (lists of characters);
the few string primitives the source uses (`toLowerCase`, `startsWith`,
`includes`, `trim`, `split`, `join`) are defined below over `List Char`.
`toLowerCase` is modelled by `Char.toLower`, which agrees with
JavaScript on the ASCII range used throughout the source.
-/

namespace Changelog

/-- Substring test on character lists: JS `String.prototype.includes`. -/
def containsSub (sub : List Char) : List Char → Bool
  | [] => sub.isEmpty
  | c :: cs => sub.isPrefixOf (c :: cs) || containsSub sub cs

/-- JS `s.includes(sub)`. -/
def jsIncludes (s sub : String) : Bool := containsSub sub.data s.data

/-- JS `s.startsWith(p)`. -/
def jsStartsWith (s p : String) : Bool := p.data.isPrefixOf s.data

/-- JS `s.toLowerCase()` (ASCII-faithful). -/
def jsToLower (s : String) : String := ⟨s.data.map Char.toLower⟩

/-- Trim on character lists: drop leading and trailing whitespace. -/
def trimList (l : List Char) : List Char :=
  ((l.dropWhile Char.isWhitespace).reverse.dropWhile Char.isWhitespace).reverse

/-- JS `s.trim()` (on the whitespace characters relevant to the source). -/
def jsTrim (s : String) : String := ⟨trimList s.data⟩

/-- Split a character list on a separator character; always returns at least
one (possibly empty) group, like JS `String.prototype.split` with a
single-character separator. -/
def splitOnCharList (sep : Char) : List Char → List (List Char)
  | [] => [[]]
  | c :: cs =>
    match splitOnCharList sep cs with
    | [] => [[]]
    | g :: gs => if c = sep then [] :: g :: gs else (c :: g) :: gs

/-- JS `s.split(sep)` for a one-character separator. -/
def jsSplit (s : String) (sep : Char) : List String :=
  (splitOnCharList sep s.data).map String.mk

/-- Join character-list groups with a separator character
(JS `Array.prototype.join` with a one-character separator). -/
def joinSep (sep : Char) : List (List Char) → List Char
  | [] => []
  | [g] => g
  | g :: g' :: gs => g ++ sep :: joinSep sep (g' :: gs)

/-- JS `parts.join(sep)` for a list of strings. -/
def jsJoin (sep : Char) (parts : List String) : String :=
  ⟨joinSep sep (parts.map String.data)⟩

/-! ## Data model (`utils.ts` types) -/

/-- `CommitType` of `utils.ts`: the closed eight-category enumeration. -/
inductive CommitType where
  | feature | fix | docs | chore | refactor | test | style | other
deriving DecidableEq, Repr

/-- A parsed commit record as actually produced at runtime by `parseGitLog`:
array destructuring of `line.split('|')` yields JS `undefined` for absent
trailing fields, modelled here as `none`.  For well-formed four-field lines
every `Option` field is `some`. -/
structure ParsedCommit where
  hash : Option String
  author : Option String
  date : Option String
  message : String
  type : CommitType
deriving DecidableEq, Repr

/-- The `Commit` interface of `utils.ts` (all four text fields are strings),
the shape `filterCommits` operates on. -/
structure Commit where
  hash : String
  author : String
  date : String
  message : String
  type : CommitType
deriving DecidableEq, Repr

/-- The `CommitType | 'all'` union used by the filter criteria. -/
inductive TypeFilter where
  | all
  | only (t : CommitType)
deriving DecidableEq, Repr

/-- `DateRange` of `utils.ts`: two date strings, either possibly empty. -/
structure DateRange where
  startDate : String
  endDate : String
deriving DecidableEq, Repr

/-- `CommitFilters` of `utils.ts`. -/
structure CommitFilters where
  type : TypeFilter
  searchQuery : String
  dateRange : Option DateRange
deriving DecidableEq, Repr

/-- `COMMITS_PER_PAGE` constant. -/
def COMMITS_PER_PAGE : Int := 10

/-! ## Commit classifier (`detectCommitType`, `utils.ts` lines 97–129) -/

/-- `detectCommitType` of `utils.ts`: conventional-commit keyword pass
followed by the secondary substring pass. -/
def detectCommitType (message : String) : CommitType :=
  let lowerMessage := jsToLower message
  if jsStartsWith lowerMessage "feat" || jsIncludes lowerMessage ": feat" then .feature
  else if jsStartsWith lowerMessage "fix" || jsIncludes lowerMessage ": fix" then .fix
  else if jsStartsWith lowerMessage "docs" || jsIncludes lowerMessage ": docs" then .docs
  else if jsStartsWith lowerMessage "chore" || jsIncludes lowerMessage ": chore" then .chore
  else if jsStartsWith lowerMessage "refactor" || jsIncludes lowerMessage ": refactor" then .refactor
  else if jsStartsWith lowerMessage "test" || jsIncludes lowerMessage ": test" then .test
  else if jsStartsWith lowerMessage "style" || jsIncludes lowerMessage ": style" then .style
  else if jsIncludes lowerMessage "add" || jsIncludes lowerMessage "new" || jsIncludes lowerMessage "implement" then .feature
  else if jsIncludes lowerMessage "fix" || jsIncludes lowerMessage "bug" || jsIncludes lowerMessage "issue" then .fix
  else if jsIncludes lowerMessage "document" || jsIncludes lowerMessage "readme" || jsIncludes lowerMessage "comment" then .docs
  else if jsIncludes lowerMessage "clean" || jsIncludes lowerMessage "update" || jsIncludes lowerMessage "upgrade" then .chore
  else .other

/-- The inline `detectCommitType` defined inside the `Changelog` component:
the same conventional-commit pass, but with no secondary substring pass. -/
def inlineDetectCommitType (message : String) : CommitType :=
  let lowerMessage := jsToLower message
  if jsStartsWith lowerMessage "feat" || jsIncludes lowerMessage ": feat" then .feature
  else if jsStartsWith lowerMessage "fix" || jsIncludes lowerMessage ": fix" then .fix
  else if jsStartsWith lowerMessage "docs" || jsIncludes lowerMessage ": docs" then .docs
  else if jsStartsWith lowerMessage "chore" || jsIncludes lowerMessage ": chore" then .chore
  else if jsStartsWith lowerMessage "refactor" || jsIncludes lowerMessage ": refactor" then .refactor
  else if jsStartsWith lowerMessage "test" || jsIncludes lowerMessage ": test" then .test
  else if jsStartsWith lowerMessage "style" || jsIncludes lowerMessage ": style" then .style
  else .other

/-- Step 1 of the spec's classification algorithm (§4.3), written from the
spec's words: the ordered prefix-or-`": keyword"` rules, returning `none`
when no rule matches.  Takes the already lower-cased message. -/
def step1Classify (lowerMessage : String) : Option CommitType :=
  if jsStartsWith lowerMessage "feat" || jsIncludes lowerMessage ": feat" then some .feature
  else if jsStartsWith lowerMessage "fix" || jsIncludes lowerMessage ": fix" then some .fix
  else if jsStartsWith lowerMessage "docs" || jsIncludes lowerMessage ": docs" then some .docs
  else if jsStartsWith lowerMessage "chore" || jsIncludes lowerMessage ": chore" then some .chore
  else if jsStartsWith lowerMessage "refactor" || jsIncludes lowerMessage ": refactor" then some .refactor
  else if jsStartsWith lowerMessage "test" || jsIncludes lowerMessage ": test" then some .test
  else if jsStartsWith lowerMessage "style" || jsIncludes lowerMessage ": style" then some .style
  else none

/-- Step 2 of the spec's classification algorithm (§4.3), written from the
spec's words: the ordered secondary substring checks with `other` as the
catch-all.  Takes the already lower-cased message. -/
def step2Classify (lowerMessage : String) : CommitType :=
  if jsIncludes lowerMessage "add" || jsIncludes lowerMessage "new" || jsIncludes lowerMessage "implement" then .feature
  else if jsIncludes lowerMessage "fix" || jsIncludes lowerMessage "bug" || jsIncludes lowerMessage "issue" then .fix
  else if jsIncludes lowerMessage "document" || jsIncludes lowerMessage "readme" || jsIncludes lowerMessage "comment" then .docs
  else if jsIncludes lowerMessage "clean" || jsIncludes lowerMessage "update" || jsIncludes lowerMessage "upgrade" then .chore
  else .other

/-! ## Log parser (`parseGitLog`, `utils.ts` lines 73–89) -/

/-- The body of `parseGitLog`'s `map`:
`const [hash, author, date, ...messageParts] = line.split('|')` followed by
`messageParts.join('|')` and classification.  Parameterised on the
classifier because `utils.ts` and the inline component use different ones. -/
def parseLineWith (classify : String → CommitType) (line : String) : ParsedCommit :=
  let parts := jsSplit line '|'
  let message := jsJoin '|' (parts.drop 3)
  { hash := parts[0]?
    author := parts[1]?
    date := parts[2]?
    message := message
    type := classify message }

/-- `parseGitLog`'s pipeline: split into lines, drop blank lines, map the
line parser, preserving order. -/
def parseGitLogWith (classify : String → CommitType) (logOutput : String) : List ParsedCommit :=
  ((jsSplit logOutput '\n').filter (fun line => jsTrim line ≠ "")).map
    (parseLineWith classify)

/-- `parseGitLog` of `utils.ts` (uses the `utils.ts` classifier). -/
def parseGitLog (logOutput : String) : List ParsedCommit :=
  parseGitLogWith detectCommitType logOutput

/-- The inline parsing pipeline inside the `Changelog` component's
`fetchGitHistory` (identical structure, but using the component's inline
classifier). -/
def componentParseLog (logOutput : String) : List ParsedCommit :=
  parseGitLogWith inlineDetectCommitType logOutput

/-! ## Dates

`filterCommits` compares `new Date(string)` values.  The source only ever
feeds it ISO `YYYY-MM-DD` strings (`git log --date=short`); such a string
parses to UTC midnight of that civil day, so comparisons between the
resulting timestamps coincide with comparisons of civil day numbers, and
`setDate(getDate() + 1)` advances the timestamp by exactly one civil day.
We therefore model a date value as its civil day number (`Int`), with
`none` standing for an invalid date (JS `NaN` timestamps, all of whose
comparisons are false).  Strings not of the strict `YYYY-MM-DD` shape are
modelled as invalid. -/

/-- Gregorian leap-year rule. -/
def isLeapYear (y : Nat) : Bool :=
  y % 4 = 0 && (y % 100 ≠ 0 || y % 400 = 0)

/-- Days in a month of the proleptic Gregorian calendar. -/
def daysInMonth (y m : Nat) : Nat :=
  if m = 2 then (if isLeapYear y then 29 else 28)
  else if m = 4 || m = 6 || m = 9 || m = 11 then 30
  else 31

/-- Civil day number of `y-m-d` (days since 1970-01-01, proleptic
Gregorian). -/
def daysFromCivil (y m d : Nat) : Int :=
  let yAdj : Int := if m ≤ 2 then (y : Int) - 1 else (y : Int)
  let era : Int := Int.fdiv yAdj 400
  let yoe : Int := yAdj - era * 400
  let mp : Int := if 2 < m then (m : Int) - 3 else (m : Int) + 9
  let doy : Int := (153 * mp + 2) / 5 + (d : Int) - 1
  let doe : Int := yoe * 365 + yoe / 4 - yoe / 100 + doy
  era * 146097 + doe - 719468

/-- Read an all-digit character group as a number (`none` otherwise). -/
def digitGroupToNat (l : List Char) : Option Nat :=
  if l ≠ [] && l.all Char.isDigit then
    some (l.foldl (fun n c => n * 10 + (c.toNat - '0'.toNat)) 0)
  else none

/-- Parse a strict ISO `YYYY-MM-DD` string to its civil day number;
`none` models a JS Invalid Date. -/
def parseDate (s : String) : Option Int :=
  match splitOnCharList '-' s.data with
  | [ys, ms, ds] =>
    if ys.length = 4 && ms.length = 2 && ds.length = 2 then
      match digitGroupToNat ys, digitGroupToNat ms, digitGroupToNat ds with
      | some y, some m, some d =>
        if 1 ≤ m && m ≤ 12 && 1 ≤ d && d ≤ daysInMonth y m then
          some (daysFromCivil y m d)
        else none
      | _, _, _ => none
    else none
  | _ => none

/-! ## Filter engine (`filterCommits`, `utils.ts` lines 138–181) -/

/-- The start-bound test of `filterCommits`:
`new Date(commit.date) >= new Date(startDate)`.  A comparison against an
invalid date (`NaN`) is false in JS, hence the `false` fallbacks. -/
def startKeep (startDate : String) (c : Commit) : Bool :=
  match parseDate c.date, parseDate startDate with
  | some commitDate, some filterStart => filterStart ≤ commitDate
  | _, _ => false

/-- The end-bound test of `filterCommits`:
`new Date(commit.date) < filterEnd` after
`filterEnd.setDate(filterEnd.getDate() + 1)` — one civil day past the end
date. -/
def endKeep (endDate : String) (c : Commit) : Bool :=
  match parseDate c.date, parseDate endDate with
  | some commitDate, some filterEnd => commitDate < filterEnd + 1
  | _, _ => false

/-- The search test of `filterCommits`: lower-cased message, author or hash
contains the (lower-cased, untrimmed) query. -/
def searchHit (query : String) (c : Commit) : Bool :=
  jsIncludes (jsToLower c.message) query ||
    jsIncludes (jsToLower c.author) query ||
    jsIncludes (jsToLower c.hash) query

/-- `filterCommits` of `utils.ts`: type filter, then search filter, then the
two independent date bounds, each applied only when active. -/
def filterCommits (commits : List Commit) (filters : CommitFilters) : List Commit :=
  let result := commits
  let result :=
    match filters.type with
    | .all => result
    | .only t => result.filter (fun c => c.type = t)
  let result :=
    if jsTrim filters.searchQuery ≠ "" then
      let query := jsToLower filters.searchQuery
      result.filter (searchHit query)
    else result
  match filters.dateRange with
  | none => result
  | some dr =>
    let result :=
      if dr.startDate ≠ "" then result.filter (startKeep dr.startDate)
      else result
    if dr.endDate ≠ "" then result.filter (endKeep dr.endDate)
    else result

/-! ## Log source adapter (`fetchGitHistory`)

The two `execPromise` calls are modelled by an environment supplying the
outcome of each external command: the count query, and the log query as a
function of the computed `skip`.  A promise rejection is an `Except.error`.
-/

/-- Outcomes of the two external `git` invocations. -/
structure ExecEnv where
  /-- Result of `git rev-list --count HEAD` (stdout, or a rejection). -/
  countResult : Except Unit String
  /-- Result of `git log … --skip=<skip>` for a given skip (stdout, or a
  rejection). -/
  logResult : Int → Except Unit String

/-- JS `parseInt(s, 10)`: optional sign then the leading digit run; `none`
models `NaN`. -/
def jsParseInt (s : String) : Option Int :=
  let signAndRest : Int × List Char :=
    match s.data with
    | '-' :: t => (-1, t)
    | '+' :: t => (1, t)
    | t => (1, t)
  let digits := signAndRest.2.takeWhile Char.isDigit
  if digits = [] then none
  else
    some (signAndRest.1 *
      (digits.foldl (fun n c => n * 10 + (c.toNat - '0'.toNat)) 0 : Nat))

/-- Successful result of `fetchGitHistory` in `utils.ts`:
`{ commits, totalCount }` (`none` as count models a `NaN` from
`parseInt`). -/
structure FetchResult where
  commits : List ParsedCommit
  totalCount : Option Int
deriving DecidableEq, Repr

/-- The error message thrown by `fetchGitHistory` in `utils.ts`. -/
def fetchErrorMessage : String :=
  "Failed to fetch git history. This could be because the component is running in a build environment without git access."

/-- `fetchGitHistory` of `utils.ts` (lines 39–65): count query, then log
query; the whole body sits in one `try`, so a rejection of either call
yields the single fixed error and nothing else. -/
def fetchGitHistory (env : ExecEnv) (page : Int := 1)
    (perPage : Int := COMMITS_PER_PAGE) : Except String FetchResult :=
  match env.countResult with
  | .error _ => .error fetchErrorMessage
  | .ok countOutput =>
    let totalCount := jsParseInt (jsTrim countOutput)
    let skip := (page - 1) * perPage
    match env.logResult skip with
    | .error _ => .error fetchErrorMessage
    | .ok stdout =>
      if jsTrim stdout = "" then .ok { commits := [], totalCount := totalCount }
      else .ok { commits := parseGitLog stdout, totalCount := totalCount }

/-! ## The `Changelog` component's stateful `fetchGitHistory` -/

/-- The React state of the `Changelog` component that `fetchGitHistory`
touches (`commits`, `filteredCommits`, `loading`, `error`,
`totalCommits`).  `totalCommits : Option Int` with `none` modelling `NaN`. -/
structure ChangelogState where
  commits : List ParsedCommit
  filteredCommits : List ParsedCommit
  loading : Bool
  error : Option String
  totalCommits : Option Int
deriving DecidableEq, Repr

/-- The error message set by the component's `fetchGitHistory`. -/
def componentErrorMessage : String :=
  "Failed to load git history. This could be because the component is running in a build environment without git access."

/-- `applyFilters` of the `Changelog` component: the same algorithm as
`filterCommits`, over the component's parsed records.  Where a field is JS
`undefined` (`none`) the source would throw inside a string method; the
theorems below never reach those fields, and `getD ""` stands in
(for the date field `new Date(undefined)` is an Invalid Date, which
`parseDate (getD "")`'s `none` models exactly). -/
def applyFilters (commitsToFilter : List ParsedCommit)
    (currentFilters : CommitFilters) : List ParsedCommit :=
  let toCommit : ParsedCommit → Commit := fun c =>
    { hash := c.hash.getD "", author := c.author.getD "",
      date := c.date.getD "", message := c.message, type := c.type }
  let result := commitsToFilter
  let result :=
    match currentFilters.type with
    | .all => result
    | .only t => result.filter (fun c => c.type = t)
  let result :=
    if jsTrim currentFilters.searchQuery ≠ "" then
      let query := jsToLower currentFilters.searchQuery
      result.filter (fun c => searchHit query (toCommit c))
    else result
  match currentFilters.dateRange with
  | none => result
  | some dr =>
    let result :=
      if dr.startDate ≠ "" then
        result.filter (fun c => startKeep dr.startDate (toCommit c))
      else result
    if dr.endDate ≠ "" then
      result.filter (fun c => endKeep dr.endDate (toCommit c))
    else result

/-- The component's `fetchGitHistory` (lines 69–111 of the component):
sets `loading`, runs the count query, **applies the count to state**, then
runs the log query; a rejection anywhere is caught once, setting `error`.
Note the count is committed to state before the second call is made. -/
def componentFetchGitHistory (env : ExecEnv) (page : Int)
    (filters : CommitFilters) (s : ChangelogState) : ChangelogState :=
  let s := { s with loading := true }
  match env.countResult with
  | .error _ => { s with error := some componentErrorMessage, loading := false }
  | .ok countOutput =>
    let totalCount := jsParseInt (jsTrim countOutput)
    let s := { s with totalCommits := totalCount }
    let skip := (page - 1) * COMMITS_PER_PAGE
    match env.logResult skip with
    | .error _ => { s with error := some componentErrorMessage, loading := false }
    | .ok stdout =>
      if jsTrim stdout = "" then
        { s with commits := [], filteredCommits := [], loading := false }
      else
        let logEntries := componentParseLog stdout
        { s with commits := logEntries,
                 filteredCommits := applyFilters logEntries filters,
                 loading := false }

/-! ## Paginator (`Pagination` component) -/

/-- `Array.from({length: b - a + 1}, (_, i) => a + i)`: the integers from
`a` to `b` inclusive (empty when `b < a`). -/
def intRange (a b : Int) : List Int :=
  (List.range (b - a + 1).toNat).map (fun i => a + Int.ofNat i)

/-- `maxPageButtons` of the `Pagination` component. -/
def maxPageButtons : Int := 5

/-- `getPageRange` of the `Pagination` component: all pages when they fit,
otherwise a window of `maxPageButtons` pages centred on `currentPage` and
clamped to the right edge. -/
def getPageRange (currentPage totalPages : Int) : List Int :=
  if totalPages ≤ maxPageButtons then
    intRange 1 totalPages
  else
    let start := max (currentPage - maxPageButtons / 2) 1
    let stop := start + maxPageButtons - 1
    if stop > totalPages then
      intRange (max (totalPages - maxPageButtons + 1) 1) totalPages
    else
      intRange start stop

/-- One rendered pagination control. -/
inductive PageItem where
  | prevButton
  | page (n : Int)
  | ellipsis
  | nextButton
deriving DecidableEq, Repr

/-- The leading boundary controls: a "page 1" button when the window does
not start at 1, plus an ellipsis when the gap exceeds one page
(`pageRange[0] > 1` / `pageRange[0] > 2`; an out-of-range index is JS
`undefined`, whose comparisons are false). -/
def leadingItems (pageRange : List Int) : List PageItem :=
  match pageRange.head? with
  | none => []
  | some first =>
    if first > 1 then
      [PageItem.page 1] ++ (if first > 2 then [PageItem.ellipsis] else [])
    else []

/-- The trailing boundary controls, symmetric to `leadingItems`
(`pageRange[pageRange.length - 1] < totalPages - 1` /
`… < totalPages`). -/
def trailingItems (pageRange : List Int) (totalPages : Int) : List PageItem :=
  match pageRange.getLast? with
  | none => []
  | some last =>
    if last < totalPages then
      (if last < totalPages - 1 then [PageItem.ellipsis] else []) ++
        [PageItem.page totalPages]
    else []

/-- The `Pagination` component's output: `none` models the `return null`
for `totalPages ≤ 1`; otherwise Previous, the boundary-and-window page
buttons, Next, in render order. -/
def renderPagination (currentPage totalPages : Int) : Option (List PageItem) :=
  if totalPages ≤ 1 then none
  else
    some ([PageItem.prevButton] ++
      leadingItems (getPageRange currentPage totalPages) ++
      (getPageRange currentPage totalPages).map PageItem.page ++
      trailingItems (getPageRange currentPage totalPages) totalPages ++
      [PageItem.nextButton])

/-! ## Lemmas about the string primitives -/

theorem splitOnCharList_ne_nil (sep : Char) (l : List Char) :
    splitOnCharList sep l ≠ [] := by
  cases l with
  | nil => simp [splitOnCharList]
  | cons c cs =>
    simp only [splitOnCharList]
    cases h : splitOnCharList sep cs with
    | nil => simp
    | cons g gs => by_cases hc : c = sep <;> simp [hc]

theorem splitOnCharList_no_sep (sep : Char) (l : List Char) (h : sep ∉ l) :
    splitOnCharList sep l = [l] := by
  induction l with
  | nil => rfl
  | cons c cs ih =>
    simp only [List.mem_cons, not_or] at h
    simp only [splitOnCharList, ih h.2]
    rw [if_neg (fun hc => h.1 hc.symm)]

theorem splitOnCharList_append_cons (sep : Char) (l₁ l₂ : List Char)
    (h : sep ∉ l₁) :
    splitOnCharList sep (l₁ ++ sep :: l₂) = l₁ :: splitOnCharList sep l₂ := by
  induction l₁ with
  | nil =>
    simp only [List.nil_append, splitOnCharList]
    cases hsplit : splitOnCharList sep l₂ with
    | nil => exact absurd hsplit (splitOnCharList_ne_nil sep l₂)
    | cons g gs => simp
  | cons a t ih =>
    simp only [List.mem_cons, not_or] at h
    simp only [List.cons_append, splitOnCharList, List.append_eq, ih h.2]
    rw [if_neg (fun hc => h.1 hc.symm)]

theorem joinSep_cons_cons (sep c : Char) (g : List Char) (gs : List (List Char)) :
    joinSep sep ((c :: g) :: gs) = c :: joinSep sep (g :: gs) := by
  cases gs <;> rfl

theorem joinSep_splitOnCharList (sep : Char) (l : List Char) :
    joinSep sep (splitOnCharList sep l) = l := by
  induction l with
  | nil => rfl
  | cons c cs ih =>
    simp only [splitOnCharList]
    cases hsplit : splitOnCharList sep cs with
    | nil => exact absurd hsplit (splitOnCharList_ne_nil sep cs)
    | cons g gs =>
      rw [hsplit] at ih
      by_cases hc : c = sep
      · subst hc
        simp only [if_pos rfl, joinSep, List.nil_append, ih]
      · simp only [if_neg hc, joinSep_cons_cons, ih]

theorem trimList_ne_nil {l : List Char} {c : Char} (hc : c ∈ l)
    (hw : c.isWhitespace = false) : trimList l ≠ [] := by
  intro hnil
  unfold trimList at hnil
  rw [List.reverse_eq_nil_iff, List.dropWhile_eq_nil_iff] at hnil
  have hsplit :
      l.takeWhile Char.isWhitespace ++ l.dropWhile Char.isWhitespace = l :=
    List.takeWhile_append_dropWhile Char.isWhitespace l
  have h1 : c ∈ l.dropWhile Char.isWhitespace := by
    have hmem := hc
    rw [← hsplit] at hmem
    rcases List.mem_append.mp hmem with h | h
    · exact absurd (List.mem_takeWhile_imp h) (by simp [hw])
    · exact h
  have := hnil c (List.mem_reverse.mpr h1)
  simp [hw] at this

/-- A string is ≠ `""` exactly when its character list is ≠ `[]`. -/
theorem String_mk_ne_empty (l : List Char) (h : l ≠ []) :
    (⟨l⟩ : String) ≠ "" := by
  intro he
  exact h (congrArg String.data he)

/-- A string containing a non-whitespace character does not trim to `""`. -/
theorem jsTrim_ne_empty_of_mem (s : String) (c : Char) (hc : c ∈ s.data)
    (hw : c.isWhitespace = false) : jsTrim s ≠ "" :=
  String_mk_ne_empty _ (trimList_ne_nil hc hw)

@[simp] theorem data_mk (l : List Char) : (⟨l⟩ : String).data = l := rfl

@[simp] theorem mk_data (s : String) : (⟨s.data⟩ : String) = s := rfl

/-! ## Lemmas about the parser -/

/-- The line parser on a well-formed four-field line: the first three `|`
are separators, the remainder (bars and all) is the message. -/
theorem parseLineWith_wellFormed (classify : String → CommitType)
    (h a d m : String) (hh : '|' ∉ h.data) (ha : '|' ∉ a.data)
    (hd : '|' ∉ d.data) :
    parseLineWith classify (h ++ "|" ++ a ++ "|" ++ d ++ "|" ++ m) =
      { hash := some h, author := some a, date := some d,
        message := m, type := classify m } := by
  have hdata : (h ++ "|" ++ a ++ "|" ++ d ++ "|" ++ m).data =
      h.data ++ '|' :: (a.data ++ '|' :: (d.data ++ '|' :: m.data)) := by
    simp [String.data_append]
  unfold parseLineWith jsSplit
  rw [hdata, splitOnCharList_append_cons _ _ _ hh,
      splitOnCharList_append_cons _ _ _ ha, splitOnCharList_append_cons _ _ _ hd]
  simp [jsJoin, List.map_map, Function.comp_def, joinSep_splitOnCharList]

/-- The line parser on a one-field line: author, date come out `none`
(JS `undefined`), the message is `""`. -/
theorem parseLineWith_oneField (classify : String → CommitType)
    (h : String) (hh : '|' ∉ h.data) :
    parseLineWith classify h =
      { hash := some h, author := none, date := none,
        message := "", type := classify "" } := by
  unfold parseLineWith jsSplit
  rw [splitOnCharList_no_sep _ _ hh]
  simp [jsJoin, joinSep]

/-- The line parser on a two-field line: date comes out `none`, the message
is `""`. -/
theorem parseLineWith_twoFields (classify : String → CommitType)
    (h a : String) (hh : '|' ∉ h.data) (ha : '|' ∉ a.data) :
    parseLineWith classify (h ++ "|" ++ a) =
      { hash := some h, author := some a, date := none,
        message := "", type := classify "" } := by
  have hdata : (h ++ "|" ++ a).data = h.data ++ '|' :: a.data := by
    simp [String.data_append]
  unfold parseLineWith jsSplit
  rw [hdata, splitOnCharList_append_cons _ _ _ hh, splitOnCharList_no_sep _ _ ha]
  simp [jsJoin, joinSep]

/-- The line parser on a three-field line: the message is `""`. -/
theorem parseLineWith_threeFields (classify : String → CommitType)
    (h a d : String) (hh : '|' ∉ h.data) (ha : '|' ∉ a.data)
    (hd : '|' ∉ d.data) :
    parseLineWith classify (h ++ "|" ++ a ++ "|" ++ d) =
      { hash := some h, author := some a, date := some d,
        message := "", type := classify "" } := by
  have hdata : (h ++ "|" ++ a ++ "|" ++ d).data =
      h.data ++ '|' :: (a.data ++ '|' :: d.data) := by
    simp [String.data_append]
  unfold parseLineWith jsSplit
  rw [hdata, splitOnCharList_append_cons _ _ _ hh,
      splitOnCharList_append_cons _ _ _ ha, splitOnCharList_no_sep _ _ hd]
  simp [jsJoin, joinSep]

/-- The parser on input that is a single line (no newline): one record. -/
theorem parseGitLogWith_single (classify : String → CommitType)
    (line : String) (hnl : '\n' ∉ line.data) (hnb : jsTrim line ≠ "") :
    parseGitLogWith classify line = [parseLineWith classify line] := by
  unfold parseGitLogWith jsSplit
  rw [splitOnCharList_no_sep _ _ hnl]
  simp [hnb]

/-- The parser on two lines separated by a newline and an interposed blank
line: two records in input order, the blank line discarded. -/
theorem parseGitLogWith_two (classify : String → CommitType)
    (l₁ l₂ : String) (h₁ : '\n' ∉ l₁.data) (h₂ : '\n' ∉ l₂.data)
    (hb₁ : jsTrim l₁ ≠ "") (hb₂ : jsTrim l₂ ≠ "") :
    parseGitLogWith classify (l₁ ++ "\n" ++ "\n" ++ l₂) =
      [parseLineWith classify l₁, parseLineWith classify l₂] := by
  have hdata : (l₁ ++ "\n" ++ "\n" ++ l₂).data =
      l₁.data ++ '\n' :: ([] ++ '\n' :: l₂.data) := by
    simp [String.data_append]
  unfold parseGitLogWith jsSplit
  rw [hdata, splitOnCharList_append_cons _ _ _ h₁,
      splitOnCharList_append_cons _ _ _ (List.not_mem_nil '\n'),
      splitOnCharList_no_sep _ _ h₂]
  have h0 : (!decide (jsTrim "" = "")) = false := rfl
  simp [List.filter_cons, hb₁, hb₂, h0]

/-! ## The claims -/

/-- Claim C1: `detectCommitType` is a total, deterministic function from
message strings to the eight categories, computed by the spec's ordered
algorithm: the step-1 prefix-or-`": keyword"` rules (in order feat, fix,
docs, chore, refactor, test, style, case-insensitively) first, and the
step-2 substring checks only when no step-1 rule matched; in particular
`"fix: add retry"` classifies as `fix`, not `feature`. -/
theorem claim1 :
    (∀ message : String, detectCommitType message =
      ((step1Classify (jsToLower message)).getD (step2Classify (jsToLower message)))) ∧
    detectCommitType "fix: add retry" = CommitType.fix := by
  constructor
  · intro message
    unfold detectCommitType step1Classify step2Classify
    generalize jsToLower message = lm
    by_cases h1 : (jsStartsWith lm "feat" || jsIncludes lm ": feat") = true
    · simp only [if_pos h1]; rfl
    simp only [if_neg h1]
    by_cases h2 : (jsStartsWith lm "fix" || jsIncludes lm ": fix") = true
    · simp only [if_pos h2]; rfl
    simp only [if_neg h2]
    by_cases h3 : (jsStartsWith lm "docs" || jsIncludes lm ": docs") = true
    · simp only [if_pos h3]; rfl
    simp only [if_neg h3]
    by_cases h4 : (jsStartsWith lm "chore" || jsIncludes lm ": chore") = true
    · simp only [if_pos h4]; rfl
    simp only [if_neg h4]
    by_cases h5 : (jsStartsWith lm "refactor" || jsIncludes lm ": refactor") = true
    · simp only [if_pos h5]; rfl
    simp only [if_neg h5]
    by_cases h6 : (jsStartsWith lm "test" || jsIncludes lm ": test") = true
    · simp only [if_pos h6]; rfl
    simp only [if_neg h6]
    by_cases h7 : (jsStartsWith lm "style" || jsIncludes lm ": style") = true
    · simp only [if_pos h7]; rfl
    simp only [if_neg h7]
    rfl
  · decide

/-- Claim C2: every well-formed non-blank line `h|a|d|m` parses to exactly
one record with those fields and `type = detectCommitType m`; only the
first three `|` are separators (the message may contain `|`); blank lines
are discarded and input order is preserved; the concrete raw text
`"abc123|Alice|2024-01-05|feat: add login\n\n"` parses to exactly one
`feature` record. -/
theorem claim2 (h a d m h' a' d' m' : String)
    (hhb : '|' ∉ h.data) (hab : '|' ∉ a.data) (hdb : '|' ∉ d.data)
    (hhn : '\n' ∉ h.data) (han : '\n' ∉ a.data) (hdn : '\n' ∉ d.data)
    (hmn : '\n' ∉ m.data)
    (hhb' : '|' ∉ h'.data) (hab' : '|' ∉ a'.data) (hdb' : '|' ∉ d'.data)
    (hhn' : '\n' ∉ h'.data) (han' : '\n' ∉ a'.data) (hdn' : '\n' ∉ d'.data)
    (hmn' : '\n' ∉ m'.data) :
    parseGitLog (h ++ "|" ++ a ++ "|" ++ d ++ "|" ++ m) =
      [{ hash := some h, author := some a, date := some d, message := m,
         type := detectCommitType m }] ∧
    parseGitLog ((h ++ "|" ++ a ++ "|" ++ d ++ "|" ++ m) ++ "\n" ++ "\n" ++
        (h' ++ "|" ++ a' ++ "|" ++ d' ++ "|" ++ m')) =
      [{ hash := some h, author := some a, date := some d, message := m,
         type := detectCommitType m },
       { hash := some h', author := some a', date := some d', message := m',
         type := detectCommitType m' }] ∧
    parseGitLog "abc123|Alice|2024-01-05|feat: add login\n\n" =
      [{ hash := some "abc123", author := some "Alice",
         date := some "2024-01-05", message := "feat: add login",
         type := CommitType.feature }] := by
  have hbarw : ('|' : Char).isWhitespace = false := by decide
  have hmem : '|' ∈ (h ++ "|" ++ a ++ "|" ++ d ++ "|" ++ m).data := by
    simp [String.data_append]
  have hmem' : '|' ∈ (h' ++ "|" ++ a' ++ "|" ++ d' ++ "|" ++ m').data := by
    simp [String.data_append]
  have hnl : '\n' ∉ (h ++ "|" ++ a ++ "|" ++ d ++ "|" ++ m).data := by
    simp [String.data_append, List.mem_append, hhn, han, hdn, hmn]
  have hnl' : '\n' ∉ (h' ++ "|" ++ a' ++ "|" ++ d' ++ "|" ++ m').data := by
    simp [String.data_append, List.mem_append, hhn', han', hdn', hmn']
  refine ⟨?_, ?_, by decide⟩
  · rw [parseGitLog,
      parseGitLogWith_single _ _ hnl (jsTrim_ne_empty_of_mem _ '|' hmem hbarw),
      parseLineWith_wellFormed _ _ _ _ _ hhb hab hdb]
  · rw [parseGitLog,
      parseGitLogWith_two _ _ _ hnl hnl'
        (jsTrim_ne_empty_of_mem _ '|' hmem hbarw)
        (jsTrim_ne_empty_of_mem _ '|' hmem' hbarw),
      parseLineWith_wellFormed _ _ _ _ _ hhb hab hdb,
      parseLineWith_wellFormed _ _ _ _ _ hhb' hab' hdb']

/-- Claim C2 witness: the theorem applied at concrete well-formed lines
(the second line's message itself contains the delimiter). -/
theorem claim2_witness :
    parseGitLog ("ab12" ++ "|" ++ "Alice" ++ "|" ++ "2024-01-05" ++ "|" ++ "feat: add login") =
      [{ hash := some "ab12", author := some "Alice", date := some "2024-01-05",
         message := "feat: add login", type := detectCommitType "feat: add login" }] ∧
    parseGitLog (("ab12" ++ "|" ++ "Alice" ++ "|" ++ "2024-01-05" ++ "|" ++ "feat: add login") ++
        "\n" ++ "\n" ++
        ("cd34" ++ "|" ++ "Bob" ++ "|" ++ "2024-01-06" ++ "|" ++ "do|it")) =
      [{ hash := some "ab12", author := some "Alice", date := some "2024-01-05",
         message := "feat: add login", type := detectCommitType "feat: add login" },
       { hash := some "cd34", author := some "Bob", date := some "2024-01-06",
         message := "do|it", type := detectCommitType "do|it" }] ∧
    parseGitLog "abc123|Alice|2024-01-05|feat: add login\n\n" =
      [{ hash := some "abc123", author := some "Alice",
         date := some "2024-01-05", message := "feat: add login",
         type := CommitType.feature }] :=
  claim2 "ab12" "Alice" "2024-01-05" "feat: add login" "cd34" "Bob" "2024-01-06" "do|it"
    (by decide) (by decide) (by decide) (by decide) (by decide) (by decide)
    (by decide) (by decide) (by decide) (by decide) (by decide) (by decide)
    (by decide) (by decide)

/-- Claim C3 counterexample: on the single-field line `"abc123"` the code
yields a record whose `author` (and `date`) is JS `undefined` (`none`), not
the empty string as the claim asserts; only the `message` degrades to `""`. -/
theorem claim3_counterexample :
    parseGitLog "abc123" =
      [{ hash := some "abc123", author := none, date := none,
         message := "", type := CommitType.other }] ∧
    (((parseGitLog "abc123").map ParsedCommit.author = [some ""]) = False) := by
  constructor
  · decide
  · simp only [eq_iff_iff, iff_false]
    decide

/-- Claim C3 amended: a non-blank line with fewer than four `|`-separated
parts still yields exactly one record (parsing neither fails nor aborts the
batch); the missing `message` comes out as the empty string, while missing
`author`/`date` fields come out as JS `undefined` (`none` in the model),
not as empty strings. -/
theorem claim3_amended (h a d : String)
    (hhb : '|' ∉ h.data) (hab : '|' ∉ a.data) (hdb : '|' ∉ d.data)
    (hhn : '\n' ∉ h.data) (han : '\n' ∉ a.data) (hdn : '\n' ∉ d.data)
    (hnb : jsTrim h ≠ "") :
    parseGitLog h =
      [{ hash := some h, author := none, date := none,
         message := "", type := CommitType.other }] ∧
    parseGitLog (h ++ "|" ++ a) =
      [{ hash := some h, author := some a, date := none,
         message := "", type := CommitType.other }] ∧
    parseGitLog (h ++ "|" ++ a ++ "|" ++ d) =
      [{ hash := some h, author := some a, date := some d,
         message := "", type := CommitType.other }] := by
  have hbarw : ('|' : Char).isWhitespace = false := by decide
  have hother : detectCommitType "" = CommitType.other := by decide
  have hmem2 : '|' ∈ (h ++ "|" ++ a).data := by simp [String.data_append]
  have hmem3 : '|' ∈ (h ++ "|" ++ a ++ "|" ++ d).data := by
    simp [String.data_append]
  have hnl2 : '\n' ∉ (h ++ "|" ++ a).data := by
    simp [String.data_append, List.mem_append, hhn, han]
  have hnl3 : '\n' ∉ (h ++ "|" ++ a ++ "|" ++ d).data := by
    simp [String.data_append, List.mem_append, hhn, han, hdn]
  refine ⟨?_, ?_, ?_⟩
  · rw [parseGitLog, parseGitLogWith_single _ _ hhn hnb,
      parseLineWith_oneField _ _ hhb, hother]
  · rw [parseGitLog,
      parseGitLogWith_single _ _ hnl2 (jsTrim_ne_empty_of_mem _ '|' hmem2 hbarw),
      parseLineWith_twoFields _ _ _ hhb hab, hother]
  · rw [parseGitLog,
      parseGitLogWith_single _ _ hnl3 (jsTrim_ne_empty_of_mem _ '|' hmem3 hbarw),
      parseLineWith_threeFields _ _ _ _ hhb hab hdb, hother]

/-- Claim C3 witness: the amended theorem applied at concrete strings. -/
theorem claim3_witness :
    parseGitLog "abc" =
      [{ hash := some "abc", author := none, date := none,
         message := "", type := CommitType.other }] ∧
    parseGitLog ("abc" ++ "|" ++ "Alice") =
      [{ hash := some "abc", author := some "Alice", date := none,
         message := "", type := CommitType.other }] ∧
    parseGitLog ("abc" ++ "|" ++ "Alice" ++ "|" ++ "2024-01-05") =
      [{ hash := some "abc", author := some "Alice", date := some "2024-01-05",
         message := "", type := CommitType.other }] :=
  claim3_amended "abc" "Alice" "2024-01-05"
    (by decide) (by decide) (by decide) (by decide) (by decide) (by decide)
    (by decide)

/-- Claim C4 counterexample: the two classifier implementations disagree on
`"add retry"` — the `utils.ts` classifier falls through to its secondary
substring pass and returns `feature`, while the component's inline
classifier has no secondary pass and returns `other`. -/
theorem claim4_counterexample :
    detectCommitType "add retry" = CommitType.feature ∧
    inlineDetectCommitType "add retry" = CommitType.other ∧
    ((detectCommitType "add retry" = inlineDetectCommitType "add retry") = False) := by
  refine ⟨by decide, by decide, ?_⟩
  simp only [eq_iff_iff, iff_false]
  decide

/-- Claim C4 amended: the two classifiers agree on every message the inline
classifier sends to a non-`other` category (their step-1 rule chains are
identical, and the `utils.ts` classifier consults its secondary pass only
when step 1 fails); they differ exactly on messages that only the
secondary substring pass of `utils.ts` can classify. -/
theorem claim4_amended (message : String)
    (hne : inlineDetectCommitType message ≠ CommitType.other) :
    detectCommitType message = inlineDetectCommitType message := by
  unfold inlineDetectCommitType at hne
  unfold detectCommitType inlineDetectCommitType
  generalize hlm : jsToLower message = lm
  rw [hlm] at hne
  by_cases h1 : (jsStartsWith lm "feat" || jsIncludes lm ": feat") = true
  · simp only [if_pos h1]
  simp only [if_neg h1] at hne ⊢
  by_cases h2 : (jsStartsWith lm "fix" || jsIncludes lm ": fix") = true
  · simp only [if_pos h2]
  simp only [if_neg h2] at hne ⊢
  by_cases h3 : (jsStartsWith lm "docs" || jsIncludes lm ": docs") = true
  · simp only [if_pos h3]
  simp only [if_neg h3] at hne ⊢
  by_cases h4 : (jsStartsWith lm "chore" || jsIncludes lm ": chore") = true
  · simp only [if_pos h4]
  simp only [if_neg h4] at hne ⊢
  by_cases h5 : (jsStartsWith lm "refactor" || jsIncludes lm ": refactor") = true
  · simp only [if_pos h5]
  simp only [if_neg h5] at hne ⊢
  by_cases h6 : (jsStartsWith lm "test" || jsIncludes lm ": test") = true
  · simp only [if_pos h6]
  simp only [if_neg h6] at hne ⊢
  by_cases h7 : (jsStartsWith lm "style" || jsIncludes lm ": style") = true
  · simp only [if_pos h7]
  simp only [if_neg h7] at hne ⊢
  exact absurd rfl hne

/-- Claim C4 witness: the amended theorem applied at a message the inline
classifier does classify. -/
theorem claim4_witness :
    inlineDetectCommitType "feat: new parser" ≠ CommitType.other ∧
    detectCommitType "feat: new parser" = inlineDetectCommitType "feat: new parser" :=
  ⟨by decide, claim4_amended "feat: new parser" (by decide)⟩

/-- Claim C8: with the `all` category sentinel, whitespace-only search text
and no date range, `filterCommits` returns its input list unchanged, in the
same order. -/
theorem claim8 (R : List Commit) (q : String) (hq : jsTrim q = "") :
    filterCommits R { type := .all, searchQuery := q, dateRange := none } = R := by
  unfold filterCommits
  simp [hq]

/-- Claim C8 witness: the theorem applied at a concrete two-record list and
a whitespace-only query. -/
theorem claim8_witness :
    filterCommits
      [{ hash := "ab12", author := "Alice", date := "2024-01-05",
         message := "feat: add login", type := CommitType.feature },
       { hash := "cd34", author := "Bob", date := "2024-01-06",
         message := "fix crash", type := CommitType.fix }]
      { type := .all, searchQuery := "   ", dateRange := none } =
      [{ hash := "ab12", author := "Alice", date := "2024-01-05",
         message := "feat: add login", type := CommitType.feature },
       { hash := "cd34", author := "Bob", date := "2024-01-06",
         message := "fix crash", type := CommitType.fix }] :=
  claim8 _ "   " (by decide)

/-- The type-stage predicate of `filterCommits` (`fun _ => true` when the
stage is inactive). -/
def typePredOf (f : CommitFilters) : Commit → Bool :=
  match f.type with
  | .all => fun _ => true
  | .only t => fun c => c.type = t

/-- The search-stage predicate of `filterCommits`. -/
def searchPredOf (f : CommitFilters) : Commit → Bool :=
  if jsTrim f.searchQuery ≠ "" then searchHit (jsToLower f.searchQuery)
  else fun _ => true

/-- The start-bound predicate of `filterCommits`. -/
def startPredOf (f : CommitFilters) : Commit → Bool :=
  match f.dateRange with
  | none => fun _ => true
  | some dr => if dr.startDate ≠ "" then startKeep dr.startDate else fun _ => true

/-- The end-bound predicate of `filterCommits`. -/
def endPredOf (f : CommitFilters) : Commit → Bool :=
  match f.dateRange with
  | none => fun _ => true
  | some dr => if dr.endDate ≠ "" then endKeep dr.endDate else fun _ => true

/-- `filterCommits` is the four-stage filter composition. -/
theorem filterCommits_eq_filters (R : List Commit) (f : CommitFilters) :
    filterCommits R f =
      (((R.filter (typePredOf f)).filter (searchPredOf f)).filter
        (startPredOf f)).filter (endPredOf f) := by
  rcases f with ⟨tf, q, dr⟩
  unfold filterCommits typePredOf searchPredOf startPredOf endPredOf
  rcases dr with _ | ⟨sd, ed⟩
  · cases tf <;> by_cases hq : jsTrim q ≠ "" <;> simp [hq, List.filter_true]
  · cases tf <;> by_cases hq : jsTrim q ≠ "" <;> by_cases hsd : sd ≠ "" <;>
      by_cases hed : ed ≠ "" <;> simp [hq, hsd, hed, List.filter_true]

/-- A four-stage list filter is idempotent. -/
theorem filter4_idem {α : Type} (l : List α) (p q r s : α → Bool) :
    (((((((l.filter p).filter q).filter r).filter s).filter p).filter
      q).filter r).filter s =
      (((l.filter p).filter q).filter r).filter s := by
  simp only [List.filter_filter]
  exact List.filter_congr (fun a _ => by
    cases p a <;> cases q a <;> cases r a <;> cases s a <;> rfl)

/-- Claim C9: `filterCommits` is idempotent — applying the same filter
criteria twice gives the same list as applying them once. -/
theorem claim9 (R : List Commit) (f : CommitFilters) :
    filterCommits (filterCommits R f) f = filterCommits R f := by
  rw [filterCommits_eq_filters, filterCommits_eq_filters]
  exact filter4_idem R (typePredOf f) (searchPredOf f) (startPredOf f) (endPredOf f)

/-- Claim C10: the Paginator produces no output at all when
`totalPages ≤ 1`, whatever the current page. -/
theorem claim10 (currentPage totalPages : Int) (h : totalPages ≤ 1) :
    renderPagination currentPage totalPages = none := by
  unfold renderPagination
  rw [if_pos h]

/-- Claim C10 witness: the theorem applied at `totalPages = 1` and
`totalPages = 0`. -/
theorem claim10_witness :
    renderPagination 7 1 = none ∧ renderPagination 3 0 = none :=
  ⟨claim10 7 1 (by decide), claim10 3 0 (by decide)⟩

/-- Claim C5: the date-range filter is inclusive of both endpoints — the
start bound keeps exactly the records with date ≥ start, the end bound
keeps exactly the records with date < end + 1 day (so a record dated
exactly `end` is retained and one dated `end + 1 day` is excluded), and
the two bounds apply independently (either, both or neither active). -/
theorem claim5 (R : List Commit) (sd ed : String) (s e : Int)
    (hs : parseDate sd = some s) (he : parseDate ed = some e) :
    filterCommits R { type := .all, searchQuery := "", dateRange := some ⟨sd, ed⟩ } =
      (R.filter (startKeep sd)).filter (endKeep ed) ∧
    filterCommits R { type := .all, searchQuery := "", dateRange := some ⟨sd, ""⟩ } =
      R.filter (startKeep sd) ∧
    filterCommits R { type := .all, searchQuery := "", dateRange := some ⟨"", ed⟩ } =
      R.filter (endKeep ed) ∧
    filterCommits R { type := .all, searchQuery := "", dateRange := some ⟨"", ""⟩ } =
      R ∧
    (∀ (c : Commit) (n : Int), parseDate c.date = some n →
      startKeep sd c = decide (s ≤ n) ∧
      endKeep ed c = decide (n < e + 1) ∧
      (n = e → endKeep ed c = true) ∧
      (n = e + 1 → endKeep ed c = false)) := by
  have hsd : sd ≠ "" := by
    intro hh
    rw [hh] at hs
    exact Option.noConfusion hs
  have hed : ed ≠ "" := by
    intro hh
    rw [hh] at he
    exact Option.noConfusion he
  have htrim : jsTrim "" = "" := rfl
  refine ⟨?_, ?_, ?_, ?_, ?_⟩
  · unfold filterCommits
    simp [htrim, hsd, hed]
  · unfold filterCommits
    simp [htrim, hsd]
  · unfold filterCommits
    simp [htrim, hed]
  · unfold filterCommits
    simp [htrim]
  · intro c n hn
    refine ⟨?_, ?_, ?_, ?_⟩
    · unfold startKeep
      rw [hn, hs]
    · unfold endKeep
      rw [hn, he]
    · intro hne
      unfold endKeep
      rw [hn, he]
      simp only [decide_eq_true_eq]
      omega
    · intro hne
      unfold endKeep
      rw [hn, he]
      simp only [decide_eq_false_iff_not]
      omega

/-- Claim C5 witness: the theorem applied at concrete bounds and records —
the record dated exactly the end date is retained, the record dated one
day later is excluded. -/
theorem claim5_witness :
    filterCommits
      [{ hash := "h1", author := "A", date := "2024-01-05",
         message := "m1", type := CommitType.other },
       { hash := "h2", author := "B", date := "2024-01-06",
         message := "m2", type := CommitType.other }]
      { type := .all, searchQuery := "",
        dateRange := some ⟨"2024-01-01", "2024-01-05"⟩ } =
      [{ hash := "h1", author := "A", date := "2024-01-05",
         message := "m1", type := CommitType.other }] ∧
    startKeep "2024-01-01"
      { hash := "h1", author := "A", date := "2024-01-05",
        message := "m1", type := CommitType.other } = true ∧
    endKeep "2024-01-05"
      { hash := "h1", author := "A", date := "2024-01-05",
        message := "m1", type := CommitType.other } = true ∧
    endKeep "2024-01-05"
      { hash := "h2", author := "B", date := "2024-01-06",
        message := "m2", type := CommitType.other } = false := by
  have h := claim5
    [{ hash := "h1", author := "A", date := "2024-01-05",
       message := "m1", type := CommitType.other },
     { hash := "h2", author := "B", date := "2024-01-06",
       message := "m2", type := CommitType.other }]
    "2024-01-01" "2024-01-05" 19723 19727 (by decide) (by decide)
  refine ⟨?_, ?_, ?_, ?_⟩
  · rw [h.1]
    decide
  · rw [(h.2.2.2.2 _ 19727 (by decide)).1]
    decide
  · exact (h.2.2.2.2 _ 19727 (by decide)).2.2.1 (by decide)
  · exact (h.2.2.2.2 _ 19728 (by decide)).2.2.2 (by decide)

/-! ## Lemmas for the paginator -/

theorem intRange_head (a b : Int) (h : a ≤ b) :
    (intRange a b).head? = some a := by
  unfold intRange
  rw [List.head?_map, List.head?_range]
  have hz : ¬ (b - a + 1).toNat = 0 := by omega
  simp only [hz, if_false, ite_false, Option.map_some']
  simp only [Option.some.injEq, Int.ofNat_eq_coe]
  omega

theorem intRange_getLast (a b : Int) (h : a ≤ b) :
    (intRange a b).getLast? = some b := by
  unfold intRange
  have hn : (b - a + 1).toNat = (b - a).toNat + 1 := by omega
  rw [hn, List.range_succ]
  simp only [List.map_append, List.map_cons, List.map_nil, List.getLast?_concat,
    Option.some.injEq, Int.ofNat_eq_coe]
  omega

theorem leadingItems_intRange (a b : Int) (h : a ≤ b) :
    leadingItems (intRange a b) =
      (if 1 < a then [PageItem.page 1] else []) ++
        (if 2 < a then [PageItem.ellipsis] else []) := by
  unfold leadingItems
  rw [intRange_head a b h]
  by_cases h1 : 1 < a
  · simp [h1]
  · have h2 : ¬ 2 < a := by omega
    simp [h1, h2]

theorem trailingItems_intRange (a b tp : Int) (h : a ≤ b) :
    trailingItems (intRange a b) tp =
      (if b < tp - 1 then [PageItem.ellipsis] else []) ++
        (if b < tp then [PageItem.page tp] else []) := by
  unfold trailingItems
  rw [intRange_getLast a b h]
  by_cases h1 : b < tp
  · simp [h1]
  · have h2 : ¬ b < tp - 1 := by omega
    simp [h1, h2]

/-- Claim C6: for any `currentPage` within `[1, totalPages]` and
`maxButtons = 5`: all pages are shown verbatim (no ellipsis, no boundary
entries) when they fit; otherwise the window is
`start = max(currentPage - 2, 1)`, `end = start + 4` clamped to
`totalPages` with `start` recomputed, a "page 1" control is prepended
exactly when the window starts after page 1 (with an ellipsis iff the gap
exceeds one page), symmetrically for the trailing boundary; and for
`totalPages = 12`, `currentPage = 6` the window is `4..8` with leading
"1 …" and trailing "… 12". -/
theorem claim6 (cp tp : Int) (hcp1 : 1 ≤ cp) (hcp2 : cp ≤ tp) :
    (tp ≤ 5 →
      getPageRange cp tp = intRange 1 tp ∧
      renderPagination cp tp =
        (if tp ≤ 1 then none
         else some ([PageItem.prevButton] ++
           (intRange 1 tp).map PageItem.page ++ [PageItem.nextButton]))) ∧
    (5 < tp →
      getPageRange cp tp =
        intRange (max (min (max (cp - 2) 1 + 4) tp - 4) 1)
          (min (max (cp - 2) 1 + 4) tp) ∧
      renderPagination cp tp =
        some ([PageItem.prevButton] ++
          (if 1 < max (min (max (cp - 2) 1 + 4) tp - 4) 1 then [PageItem.page 1]
           else []) ++
          (if 2 < max (min (max (cp - 2) 1 + 4) tp - 4) 1 then [PageItem.ellipsis]
           else []) ++
          (intRange (max (min (max (cp - 2) 1 + 4) tp - 4) 1)
            (min (max (cp - 2) 1 + 4) tp)).map PageItem.page ++
          (if min (max (cp - 2) 1 + 4) tp < tp - 1 then [PageItem.ellipsis]
           else []) ++
          (if min (max (cp - 2) 1 + 4) tp < tp then [PageItem.page tp]
           else []) ++
          [PageItem.nextButton])) ∧
    (getPageRange 6 12 = [4, 5, 6, 7, 8] ∧
     renderPagination 6 12 = some [PageItem.prevButton, PageItem.page 1,
       PageItem.ellipsis, PageItem.page 4, PageItem.page 5, PageItem.page 6,
       PageItem.page 7, PageItem.page 8, PageItem.ellipsis, PageItem.page 12,
       PageItem.nextButton]) := by
  have h52 : (5 : Int) / 2 = 2 := by decide
  refine ⟨?_, ?_, by decide, by decide⟩
  · intro h5
    have hgr : getPageRange cp tp = intRange 1 tp := by
      unfold getPageRange maxPageButtons
      rw [if_pos h5]
    refine ⟨hgr, ?_⟩
    by_cases h1 : tp ≤ 1
    · unfold renderPagination
      rw [if_pos h1, if_pos h1]
    · unfold renderPagination
      rw [if_neg h1, if_neg h1, hgr,
        leadingItems_intRange 1 tp (by omega),
        trailingItems_intRange 1 tp tp (by omega)]
      have ha : ¬ (1 : Int) < 1 := by omega
      have hb : ¬ (2 : Int) < 1 := by omega
      have hc : ¬ tp < tp := by omega
      have hd : ¬ tp < tp - 1 := by omega
      simp [ha, hb, hc, hd]
  · intro h5
    have h5' : ¬ tp ≤ 5 := by omega
    have hgr : getPageRange cp tp =
        intRange (max (min (max (cp - 2) 1 + 4) tp - 4) 1)
          (min (max (cp - 2) 1 + 4) tp) := by
      unfold getPageRange maxPageButtons
      rw [if_neg h5']
      simp only [h52]
      by_cases hclamp : max (cp - 2) 1 + 5 - 1 > tp
      · rw [if_pos hclamp]
        congr 1 <;> omega
      · rw [if_neg hclamp]
        congr 1 <;> omega
    have hle : max (min (max (cp - 2) 1 + 4) tp - 4) 1 ≤
        min (max (cp - 2) 1 + 4) tp := by omega
    refine ⟨hgr, ?_⟩
    unfold renderPagination
    have h1 : ¬ tp ≤ 1 := by omega
    rw [if_neg h1, hgr, leadingItems_intRange _ _ hle,
      trailingItems_intRange _ _ tp hle]
    simp [List.append_assoc]

/-- Claim C6 witness: the theorem's concrete instance at
`totalPages = 12`, `currentPage = 6`. -/
theorem claim6_witness :
    getPageRange 6 12 = [4, 5, 6, 7, 8] ∧
    renderPagination 6 12 = some [PageItem.prevButton, PageItem.page 1,
      PageItem.ellipsis, PageItem.page 4, PageItem.page 5, PageItem.page 6,
      PageItem.page 7, PageItem.page 8, PageItem.ellipsis, PageItem.page 12,
      PageItem.nextButton] :=
  (claim6 6 12 (by decide) (by decide)).2.2

/-- Claim C7 counterexample: with a succeeding count query and a failing
log query, the `Changelog` component's `fetchGitHistory` errors out but
leaves the freshly fetched total count applied to state (`totalCommits`
goes from `some 0` to `some 5`), so part of the result **is** left applied
to state on failure of the second external call. -/
theorem claim7_counterexample :
    (componentFetchGitHistory ⟨Except.ok "5\n", fun _ => Except.error ()⟩ 1
      { type := .all, searchQuery := "", dateRange := none }
      { commits := [], filteredCommits := [], loading := true, error := none,
        totalCommits := some 0 }).error = some componentErrorMessage ∧
    (componentFetchGitHistory ⟨Except.ok "5\n", fun _ => Except.error ()⟩ 1
      { type := .all, searchQuery := "", dateRange := none }
      { commits := [], filteredCommits := [], loading := true, error := none,
        totalCommits := some 0 }).totalCommits = some 5 ∧
    (((some 5 : Option Int) = some 0) = False) := by
  refine ⟨rfl, rfl, ?_⟩
  simp only [eq_iff_iff, iff_false]
  decide

/-- Claim C7 amended: the `utils.ts` `fetchGitHistory` is atomic — it
succeeds (returning records and total count together) exactly when both
external calls succeed, and any failure yields the single fixed error with
nothing delivered; the component's `fetchGitHistory`, however, commits the
total count to state before the log query, so when only the second call
fails the error state still carries the new total count (commits and
filtered commits unchanged). -/
theorem claim7_amended (env : ExecEnv) (page perPage : Int) :
    ((∃ r, fetchGitHistory env page perPage = Except.ok r) ↔
      (∃ c, env.countResult = Except.ok c) ∧
      (∃ l, env.logResult ((page - 1) * perPage) = Except.ok l)) ∧
    (∀ msg, fetchGitHistory env page perPage = Except.error msg →
      msg = fetchErrorMessage) ∧
    (∀ (s : ChangelogState) (f : CommitFilters) (countOut : String),
      env.countResult = Except.ok countOut →
      env.logResult ((page - 1) * COMMITS_PER_PAGE) = Except.error () →
      componentFetchGitHistory env page f s =
        { s with loading := false, error := some componentErrorMessage,
                 totalCommits := jsParseInt (jsTrim countOut) }) := by
  refine ⟨?_, ?_, ?_⟩
  · unfold fetchGitHistory
    cases hc : env.countResult with
    | error e => simp [hc]
    | ok c =>
      cases hl : env.logResult ((page - 1) * perPage) with
      | error e => simp [hc, hl]
      | ok l =>
        simp only [hc, hl]
        constructor
        · intro _
          exact ⟨⟨c, rfl⟩, ⟨l, rfl⟩⟩
        · intro _
          by_cases hb : jsTrim l = ""
          · exact ⟨_, by rw [if_pos hb]⟩
          · exact ⟨_, by rw [if_neg hb]⟩
  · intro msg hmsg
    unfold fetchGitHistory at hmsg
    cases hc : env.countResult with
    | error e =>
      rw [hc] at hmsg
      exact (Except.error.inj hmsg).symm
    | ok c =>
      rw [hc] at hmsg
      cases hl : env.logResult ((page - 1) * perPage) with
      | error e =>
        simp only [hl, Except.error.injEq] at hmsg
        exact hmsg.symm
      | ok l =>
        simp only [hl] at hmsg
        by_cases hb : jsTrim l = ""
        · rw [if_pos hb] at hmsg
          exact Except.noConfusion hmsg
        · rw [if_neg hb] at hmsg
          exact Except.noConfusion hmsg
  · intro s f countOut hcount hlog
    unfold componentFetchGitHistory
    simp only [hcount, hlog]

/-- Claim C7 witness: the amended theorem applied at a concrete
environment whose count query succeeds with `"5\n"` and whose log query
rejects. -/
theorem claim7_witness :
    componentFetchGitHistory ⟨Except.ok "5\n", fun _ => Except.error ()⟩ 1
      { type := .all, searchQuery := "", dateRange := none }
      { commits := [], filteredCommits := [], loading := true, error := none,
        totalCommits := some 0 } =
      { commits := [], filteredCommits := [], loading := false,
        error := some componentErrorMessage, totalCommits := some 5 } := by
  rw [(claim7_amended ⟨Except.ok "5\n", fun _ => Except.error ()⟩ 1 10).2.2
    { commits := [], filteredCommits := [], loading := true, error := none,
      totalCommits := some 0 }
    { type := .all, searchQuery := "", dateRange := none } "5\n" rfl rfl]
  rfl

end Changelog



